import Mathlib

/-!
Shallow embedding of `halAncestralAllele` (mutations/impl/halAncestralAllele.cpp):
a batch tool that infers, for each reference coordinate, an ancestral allele by
querying an alignment store against an ordered list of candidate ancestor
genomes, with a duplication-aware paralog fallback, a within-species last
resort, majority-vote/tie consensus, and locality-sorted processing whose
results are restored to input order before emission.

The alignment store is opaque to the tool: we model it as a record of query
functions.  A query that throws in C++ is modelled as `Except.error ()`;
genome handles opened by name are identified with their names (HAL caches
open genomes, so pointer equality coincides with name equality).
-/

/-- One aligned DNA hit inside an alignment column: the absolute array index
reported by the DNA iterator and the base character. -/
structure DnaHit where
  arrayIndex : Int
  base : Char
deriving DecidableEq, Repr

/-- One entry of a column map: the owning genome of the target sequence and
the bag of DNA hits reported for it. -/
structure ColumnEntry where
  genome : String
  dnas : List DnaHit
deriving DecidableEq, Repr

/-- The opaque alignment store, seen from the reference genome.
`getColumn tgt absStart dup` models
`refGenome->getColumnIterator({tgt}, 0, absStart, absStart, dup, false)`
followed by `getColumnMap`; an `Except.error` models a thrown exception.
`getSequence` returns the start offset of a reference sequence by name
(`none` models a missing sequence) and `getBase` models
`refGenome->getDnaIterator(pos)->getBase()`. -/
structure AlignmentStore where
  getColumn : String → Int → Bool → Except Unit (List ColumnEntry)
  getSequence : String → Option Int
  getBase : Int → Char

deriving instance DecidableEq for Except

/-- Bases that survive the counting filter (`b == 'N' || b == '-'` is skipped). -/
def validBases (bases : List Char) : List Char :=
  bases.filter (fun b => b != 'N' && b != '-')

/-- The per-hit body of `findParalogsInGenome`'s collection loop: upper-case
the base, skip the query position itself when the search is within-species
(`refGenome == targetGenome && foundPos == absStart`), then skip `'N'`,
`'-'` and NUL bases. -/
def paralogHitBase (refGenome targetGenome : String) (absStart : Int)
    (hit : DnaHit) : Option Char :=
  let b := hit.base.toUpper
  if refGenome = targetGenome ∧ hit.arrayIndex = absStart then none
  else if b ≠ 'N' ∧ b ≠ '-' ∧ b ≠ Char.ofNat 0 then some b
  else none

/-- The base collection of `findParalogsInGenome`'s loop over the column map:
for every sequence owned by the target genome, collect the surviving hits. -/
def collectParalogBases (refGenome targetGenome : String) (absStart : Int)
    (colMap : List ColumnEntry) : List Char :=
  colMap.foldl (fun acc entry =>
    if entry.genome = targetGenome then
      acc ++ entry.dnas.filterMap (paralogHitBase refGenome targetGenome absStart)
    else acc) []

/-- `findParalogsInGenome`: duplication-enabled column query against one
target genome; any store error is caught and reported as
`(false, [])` (no bases found).  The returned flag is `foundData`,
which the C++ sets exactly when at least one base was pushed. -/
def findParalogsInGenome (store : AlignmentStore) (refGenome : String)
    (absStart : Int) (targetGenome : String) : Bool × List Char :=
  if absStart < 0 then (false, [])
  else
    match store.getColumn targetGenome absStart true with
    | Except.error _ => (false, [])
    | Except.ok colMap =>
      let bases := collectParalogBases refGenome targetGenome absStart colMap
      (!bases.isEmpty, bases)

/-- Step 1 of a candidate attempt: the duplication-free direct-ortholog
collection inside `findAncestralAllele` — every base (upper-cased, with no
filtering and no self-exclusion) of every sequence owned by the target. -/
def collectDirectBases (targetGenome : String) (colMap : List ColumnEntry) : List Char :=
  colMap.foldl (fun acc entry =>
    if entry.genome = targetGenome then
      acc ++ entry.dnas.map (fun hit => hit.base.toUpper)
    else acc) []

/-- One candidate's base gathering: the direct query (whose store error is
NOT caught inside `findAncestralAllele` and therefore propagates), followed,
only when the direct collection is empty, by the duplication-enabled paralog
search.  Returns `(foundParalogs, bases)`. -/
def candidateBases (store : AlignmentStore) (refGenome : String) (absStart : Int)
    (targetGenome : String) : Except Unit (Bool × List Char) :=
  match store.getColumn targetGenome absStart false with
  | Except.error e => Except.error e
  | Except.ok colMap =>
    let bases := collectDirectBases targetGenome colMap
    Except.ok (if bases.isEmpty then findParalogsInGenome store refGenome absStart targetGenome
               else (false, bases))

/-- Insert a key into a sorted duplicate-free key list, modelling
`std::map<char,int>` key order. -/
def insertKey (c : Char) : List Char → List Char
  | [] => [c]
  | k :: ks =>
    if c < k then c :: k :: ks
    else if c = k then k :: ks
    else k :: insertKey c ks

/-- The sorted duplicate-free key set of a base list. -/
def sortedKeys (bases : List Char) : List Char :=
  bases.foldl (fun ks c => insertKey c ks) []

/-- The `std::map<char,int> counts` built from a base list after filtering
`'N'` and `'-'`: entries in sorted key order, each with its multiplicity. -/
def countBases (bases : List Char) : List (Char × Nat) :=
  let valid := validBases bases
  (sortedKeys valid).map (fun k => (k, valid.count k))

/-- State of the majority scan: current leader, its count, tie flag. -/
structure MajState where
  maj : Char
  majCount : Nat
  tie : Bool
deriving DecidableEq, Repr

/-- One step of the majority/tie scan over the counts map. -/
def majStep (st : MajState) (p : Char × Nat) : MajState :=
  if st.majCount < p.2 then ⟨p.1, p.2, false⟩
  else if p.2 = st.majCount then ⟨st.maj, st.majCount, true⟩
  else st

/-- The majority/tie scan of `findAncestralAllele` (`maj = 'N'`,
`majCount = 0`, `tie = false`, then one pass over the map entries). -/
def majorityScan (counts : List (Char × Nat)) : MajState :=
  counts.foldl majStep ⟨'N', 0, false⟩

/-- The `<base>=<count>,...` breakdown string built from the counts map. -/
def countsInfo (counts : List (Char × Nat)) : String :=
  String.intercalate "," (counts.map (fun p => String.mk [p.1] ++ "=" ++ toString p.2))

/-- The `sourceInfo` suffix: empty for a single configured candidate,
otherwise `"@<name>"` plus `"(fallback:<idx>)"` when the index is positive. -/
def candidateSourceInfo (names : List String) (idx : Nat) (name : String) : String :=
  if 1 < names.length then
    ("@" ++ name) ++ (if 0 < idx then "(fallback:" ++ toString idx ++ ")" else "")
  else ""

/-- The engine's per-position output triple. -/
structure AlleleCall where
  allele : String
  evidence : String
  usedAncestor : String
deriving DecidableEq, Repr

/-- The successful-candidate consensus of `findAncestralAllele`
(lines building `ancAllele`/`evidence` once `total > 0`). -/
def buildCall (counts : List (Char × Nat)) (total : Nat) (foundParalogs : Bool)
    (sourceInfo : String) (ancestorName : String) : AlleleCall :=
  let methodInfo := if foundParalogs then "AncestralParalog" else "Direct"
  if total = 1 then
    ⟨String.mk [(counts.headD ('N', 0)).1], methodInfo ++ sourceInfo, ancestorName⟩
  else
    let st := majorityScan counts
    let info := countsInfo counts
    if st.tie then
      ⟨"N", "AncestralParalogTie:" ++ info ++ sourceInfo, ancestorName⟩
    else
      ⟨String.mk [st.maj],
       (if foundParalogs then "AncestralParalogVote:" else "MajorityVote:") ++ info ++ sourceInfo,
       ancestorName⟩

/-- The within-species last-resort consensus (same vote logic, dedicated tags,
`usedAncestor = "WithinSpecies"`, no candidate suffix). -/
def withinSpeciesCall (counts : List (Char × Nat)) (total : Nat) : AlleleCall :=
  if total = 1 then
    ⟨String.mk [(counts.headD ('N', 0)).1], "WithinSpeciesParalog", "WithinSpecies"⟩
  else
    let st := majorityScan counts
    let info := countsInfo counts
    if st.tie then ⟨"N", "WithinSpeciesParalogTie:" ++ info, "WithinSpecies"⟩
    else ⟨String.mk [st.maj], "WithinSpeciesParalogVote:" ++ info, "WithinSpecies"⟩

/-- The exhaustive-miss result of `findAncestralAllele`. -/
def missingCall (names : List String) : AlleleCall :=
  ⟨"N",
   if 1 < names.length then "Missing(tried:" ++ toString names.length ++ "+self)"
   else "Missing(+self)",
   names.headD "Unknown"⟩

/-- The candidate loop of `findAncestralAllele`: walk the remaining candidate
names (each name is both the genome identity and `ancestorNames[idx]`),
keeping the running index for the fallback tag; stop at the first candidate
whose filtered count is positive.  A store error of a direct query
propagates. -/
def tryCandidatesFrom (store : AlignmentStore) (refGenome : String) (absStart : Int)
    (names : List String) : Nat → List String → Except Unit (Option AlleleCall)
  | _, [] => Except.ok none
  | idx, tgt :: rest =>
    match candidateBases store refGenome absStart tgt with
    | Except.error e => Except.error e
    | Except.ok (fp, bases) =>
      let total := (validBases bases).length
      if 0 < total then
        Except.ok (some (buildCall (countBases bases) total fp
          (candidateSourceInfo names idx tgt) tgt))
      else
        tryCandidatesFrom store refGenome absStart names (idx + 1) rest

/-- `findAncestralAllele`: ordered candidate fallback, then within-species
paralog last resort, then the missing result.  The boolean is the C++ return
value (an allele was found). -/
def findAncestralAllele (store : AlignmentStore) (refGenome : String) (absStart : Int)
    (names : List String) : Except Unit (Bool × AlleleCall) :=
  match tryCandidatesFrom store refGenome absStart names 0 names with
  | Except.error e => Except.error e
  | Except.ok (some call) => Except.ok (true, call)
  | Except.ok none =>
    let rp := findParalogsInGenome store refGenome absStart refGenome
    if rp.1 && !rp.2.isEmpty then
      let total := (validBases rp.2).length
      if 0 < total then Except.ok (true, withinSpeciesCall (countBases rp.2) total)
      else Except.ok (false, missingCall names)
    else Except.ok (false, missingCall names)

/-- A parsed input position. -/
structure Position where
  chrom : String
  startPos : Int
  endPos : Int
  originalOrder : Nat
deriving DecidableEq, Repr

instance : Inhabited Position := ⟨⟨"", 0, 0, 0⟩⟩

/-- `Position::operator<`: chromosome lexicographically, then start. -/
def positionLt (a b : Position) : Bool :=
  if a.chrom ≠ b.chrom then a.chrom < b.chrom else a.startPos < b.startPos

/-- Whitespace as skipped by `operator>>` (the C locale's `isspace`). -/
def isSpaceChar (c : Char) : Bool :=
  c = ' ' || c = '\t' || c = '\n' || c = '\r' || c = Char.ofNat 11 || c = Char.ofNat 12

/-- `ss >> chrom`: skip whitespace, fail at end of input, else take the
maximal nonblank run. -/
def extractWord (cs : List Char) : Option (List Char × List Char) :=
  let cs := cs.dropWhile isSpaceChar
  if cs.isEmpty then none
  else some (cs.takeWhile (fun c => !isSpaceChar c), cs.dropWhile (fun c => !isSpaceChar c))

/-- `ss >> (hal_index_t)`: skip whitespace, optional sign, then a nonempty
digit run (failure when no digit is consumed). -/
def extractInt (cs : List Char) : Option (Int × List Char) :=
  let cs := cs.dropWhile isSpaceChar
  let signed : Int × List Char :=
    match cs with
    | '-' :: rest => (-1, rest)
    | '+' :: rest => (1, rest)
    | _ => (1, cs)
  let digits := signed.2.takeWhile Char.isDigit
  if digits.isEmpty then none
  else some (signed.1 * (digits.foldl (fun acc c => acc * 10 + (c.toNat - 48)) 0 : Nat),
             signed.2.dropWhile Char.isDigit)

/-- `parseLine`: reject empty lines and `#` comments, then extract
`chrom start end`; succeed exactly when the stream has not failed. -/
def parseLine (line : String) : Option (String × Int × Int) :=
  match line.toList with
  | [] => none
  | c :: _ =>
    if c = '#' then none
    else
      match extractWord line.toList with
      | none => none
      | some (chrom, rest1) =>
        match extractInt rest1 with
        | none => none
        | some (startv, rest2) =>
          match extractInt rest2 with
          | none => none
          | some (endv, _) => some (String.mk chrom, startv, endv)

/-- The first pass of `main`: keep the parsed lines, assigning
`originalOrder` in acceptance order. -/
def loadPositions (lines : List String) : List Position :=
  (lines.filterMap parseLine).enum.map (fun p => ⟨p.2.1, p.2.2.1, p.2.2.2, p.1⟩)

/-- One per-position row of `main`'s processing loop: missing reference
sequence downgrades to a `Missing` row; otherwise compute the absolute
coordinate, fetch the reference base and run the resolver (whose store
errors propagate out of the loop). -/
def makeRowE (store : AlignmentStore) (refName : String) (names : List String)
    (pos : Position) : Except Unit String :=
  match store.getSequence pos.chrom with
  | none =>
    Except.ok (pos.chrom ++ "\t" ++ toString pos.startPos ++ "\t" ++ toString pos.endPos ++
      "\tN\t" ++ names.headD "" ++ "\tN\tMissing")
  | some seqStart =>
    let absStart := seqStart + pos.startPos
    let refBase := (store.getBase absStart).toUpper
    match findAncestralAllele store refName absStart names with
    | Except.error e => Except.error e
    | Except.ok r =>
      Except.ok (pos.chrom ++ "\t" ++ toString pos.startPos ++ "\t" ++ toString pos.endPos ++
        "\t" ++ String.mk [refBase] ++ "\t" ++ r.2.usedAncestor ++ "\t" ++ r.2.allele ++
        "\t" ++ r.2.evidence)

/-- Extract the payload of a successful row (unused on the error path). -/
def getOk (e : Except Unit String) : String :=
  match e with
  | Except.ok s => s
  | Except.error _ => ""

/-- The processing loop: walk the processing order, writing each row into the
results buffer slot of its ORIGINAL index; a thrown row aborts the whole
loop (nothing has been emitted yet, so the output is lost). -/
def runLoop (row : Nat → Except Unit String) : List Nat → List String → Except Unit (List String)
  | [], results => Except.ok results
  | idx :: rest, results =>
    match row idx with
    | Except.error e => Except.error e
    | Except.ok s => runLoop row rest (results.set idx s)

/-- Insertion into a list sorted by the strict comparator (a deterministic
model of the `std::sort` call; only the permutation property matters). -/
def insertByLt (lt : Nat → Nat → Bool) (x : Nat) : List Nat → List Nat
  | [] => [x]
  | y :: ys => if lt x y then x :: y :: ys else y :: insertByLt lt x ys

/-- Comparison sort of the index list. -/
def sortIndices (lt : Nat → Nat → Bool) (l : List Nat) : List Nat :=
  l.foldr (insertByLt lt) []

/-- The processing permutation: input order under `noSort`, otherwise the
indices sorted by `(chromosome, start)` of their positions. -/
def processingOrder (positions : List Position) (noSort : Bool) : List Nat :=
  if noSort then List.range positions.length
  else sortIndices (fun a b => positionLt (positions.getD a default) (positions.getD b default))
    (List.range positions.length)

/-- The row computed for the position at input index `idx`. -/
def rowOf (store : AlignmentStore) (refName : String) (names : List String)
    (positions : List Position) (idx : Nat) : Except Unit String :=
  makeRowE store refName names (positions.getD idx default)

/-- The whole scheduler: build the order, run the loop over a buffer of
`positions.length` empty slots, return the buffer (emitted in slot order). -/
def runBatch (store : AlignmentStore) (refName : String) (names : List String)
    (positions : List Position) (noSort : Bool) : Except Unit (List String) :=
  runLoop (rowOf store refName names positions)
    (processingOrder positions noSort)
    (List.replicate positions.length "")

/-- Observable outcome of a run: exit status, emitted rows, and the error
line printed to standard error (if any). -/
structure ProgramResult where
  exitCode : Nat
  rows : List String
  errorMessage : Option String
deriving DecidableEq, Repr

/-- `main` after startup succeeded (genomes resolved, files opened): load the
positions, exit 1 with no rows when none parsed, else run the batch; a
propagated store exception also exits 1 with no rows emitted. -/
def runProgram (store : AlignmentStore) (refName : String) (names : List String)
    (lines : List String) (noSort : Bool) : ProgramResult :=
  let positions := loadPositions lines
  if positions.isEmpty then ⟨1, [], some "No valid positions found in input file"⟩
  else
    match runBatch store refName names positions noSort with
    | Except.error _ => ⟨1, [], some "hal exception"⟩
    | Except.ok rows => ⟨0, rows, none⟩

/-- The running maximum of the counts map. -/
def maxCount (counts : List (Char × Nat)) : Nat :=
  counts.foldl (fun m p => max m p.2) 0

/-- How many entries of the counts map attain the maximum count. -/
def numAtMax (counts : List (Char × Nat)) : Nat :=
  (counts.filter (fun p => p.2 = maxCount counts)).length

/-- A candidate that produces no call: its base gathering succeeds but every
collected base is filtered out. -/
def candFails (store : AlignmentStore) (refGenome : String) (absStart : Int)
    (nm : String) : Prop :=
  ∃ fp b, candidateBases store refGenome absStart nm = Except.ok (fp, b) ∧ validBases b = []

example : validBases ['A', 'N', '-', 'C'] = ['A', 'C'] := by decide
example : countBases ['C', 'A', 'C', 'N'] = [('A', 1), ('C', 2)] := by decide
example : (majorityScan [('A', 2), ('C', 2)]).tie = true := by decide
example : countsInfo [('A', 2), ('C', 2)] = "A=2,C=2" := by decide
example : parseLine "chr1\t5\t6" = some ("chr1", 5, 6) := by decide
example : parseLine "# comment" = none := by decide
example : parseLine "chr1 5" = none := by decide
example : parseLine "chr1 5x 7" = none := by decide
example : parseLine "chr1 12 34x" = some ("chr1", 12, 34) := by decide

/-! ### Concrete stores and inputs used to evaluate the model -/

/-- A store whose direct (duplication-free) queries all throw and whose
duplication-enabled queries all return an empty column. -/
def directErrorStore : AlignmentStore :=
  ⟨fun _ _ dup => if dup then Except.ok [] else Except.error (),
   fun _ => some 0, fun _ => 'A'⟩

/-- A store whose duplication-enabled queries all throw and whose direct
queries all return an empty column. -/
def dupErrorStore : AlignmentStore :=
  ⟨fun _ _ dup => if dup then Except.error () else Except.ok [],
   fun _ => some 0, fun _ => 'A'⟩

/-- A store answering every query with an empty column. -/
def emptyStore : AlignmentStore :=
  ⟨fun _ _ _ => Except.ok [], fun _ => some 0, fun _ => 'G'⟩

/-- A store whose direct column for any target holds exactly one hit owned by
genome `"R"`, at array position 5 with base `A` (the self hit of a query at
absolute position 5 on reference `"R"`). -/
def selfHitStore : AlignmentStore :=
  ⟨fun _ _ dup => if dup then Except.ok [] else Except.ok [⟨"R", [⟨5, 'A'⟩]⟩],
   fun _ => some 0, fun _ => 'A'⟩

/-- A store where only genome `G2`'s direct query yields bases (three `T`s). -/
def fallbackStore : AlignmentStore :=
  ⟨fun tgt _ dup =>
     if tgt = "G2" ∧ dup = false then Except.ok [⟨"G2", [⟨1, 'T'⟩, ⟨2, 'T'⟩, ⟨3, 'T'⟩]⟩]
     else Except.ok [],
   fun _ => some 0, fun _ => 'A'⟩

/-- A store where genome `G1`'s direct query yields one `A` and one `C`
(a two-way tie). -/
def tieStore : AlignmentStore :=
  ⟨fun tgt _ dup =>
     if tgt = "G1" ∧ dup = false then Except.ok [⟨"G1", [⟨1, 'A'⟩, ⟨2, 'C'⟩]⟩]
     else Except.ok [],
   fun _ => some 0, fun _ => 'A'⟩

/-- A store whose direct column for any target holds a single `C` owned by
genome `"Anc"`. -/
def singleBaseStore : AlignmentStore :=
  ⟨fun _ _ dup => if dup then Except.ok [] else Except.ok [⟨"Anc", [⟨9, 'C'⟩]⟩],
   fun _ => some 0, fun _ => 'A'⟩

/-- A store whose direct column holds only gap/unknown bases (an `N` and a
`-` owned by genome `G1`). -/
def gapOnlyStore : AlignmentStore :=
  ⟨fun _ _ dup => if dup then Except.ok [] else Except.ok [⟨"G1", [⟨2, 'N'⟩, ⟨3, '-'⟩]⟩],
   fun _ => some 0, fun _ => 'A'⟩

/-- Two positions whose locality sort swaps the processing order. -/
def twoPositions : List Position :=
  [⟨"chr2", 5, 6, 0⟩, ⟨"chr1", 3, 4, 1⟩]

/-! ### Counts-map lemmas -/

lemma mem_insertKey {c d : Char} : ∀ {ks : List Char}, c ∈ insertKey d ks ↔ c = d ∨ c ∈ ks
  | [] => by simp [insertKey]
  | k :: ks => by
    simp only [insertKey]
    by_cases h1 : d < k
    · simp [h1, List.mem_cons]
    · by_cases h2 : d = k
      · subst h2
        simp [h1, List.mem_cons]
      · simp only [h1, h2, if_false, List.mem_cons]
        rw [@mem_insertKey c d ks]
        tauto

lemma pairwise_insertKey {c : Char} :
    ∀ {ks : List Char}, ks.Pairwise (· < ·) → (insertKey c ks).Pairwise (· < ·)
  | [], _ => by simp [insertKey]
  | k :: ks, h => by
    rcases List.pairwise_cons.mp h with ⟨hk, hks⟩
    simp only [insertKey]
    by_cases h1 : c < k
    · rw [if_pos h1]
      refine List.pairwise_cons.mpr ⟨?_, h⟩
      intro a ha
      rcases List.mem_cons.mp ha with rfl | ha
      · exact h1
      · exact lt_trans h1 (hk a ha)
    · by_cases h2 : c = k
      · rw [if_neg h1, if_pos h2]
        exact h
      · have hkc : k < c := by
          rcases lt_trichotomy c k with h | h | h
          · exact absurd h h1
          · exact absurd h h2
          · exact h
        rw [if_neg h1, if_neg h2]
        refine List.pairwise_cons.mpr ⟨?_, pairwise_insertKey hks⟩
        intro a ha
        rcases mem_insertKey.mp ha with rfl | ha
        · exact hkc
        · exact hk a ha

lemma sortedKeys_aux_mem (l : List Char) :
    ∀ (acc : List Char) (c : Char),
      c ∈ l.foldl (fun ks x => insertKey x ks) acc ↔ c ∈ l ∨ c ∈ acc := by
  induction l with
  | nil => intro acc c; simp
  | cons x xs ih =>
    intro acc c
    simp only [List.foldl_cons]
    rw [ih]
    simp only [mem_insertKey, List.mem_cons]
    tauto

lemma mem_sortedKeys {c : Char} {l : List Char} : c ∈ sortedKeys l ↔ c ∈ l := by
  unfold sortedKeys
  rw [sortedKeys_aux_mem]
  simp

lemma sortedKeys_aux_pairwise (l : List Char) :
    ∀ (acc : List Char), acc.Pairwise (· < ·) →
      (l.foldl (fun ks x => insertKey x ks) acc).Pairwise (· < ·) := by
  induction l with
  | nil => intro acc h; simpa using h
  | cons x xs ih =>
    intro acc h
    simp only [List.foldl_cons]
    exact ih _ (pairwise_insertKey h)

lemma sortedKeys_pairwise (l : List Char) : (sortedKeys l).Pairwise (· < ·) :=
  sortedKeys_aux_pairwise l [] (by simp)

lemma validBases_mem {b : Char} {bases : List Char} :
    b ∈ validBases bases ↔ b ∈ bases ∧ b ≠ 'N' ∧ b ≠ '-' := by
  simp [validBases, List.mem_filter]

lemma countBases_mem {bases : List Char} {p : Char × Nat} :
    p ∈ countBases bases ↔ p.1 ∈ validBases bases ∧ p.2 = (validBases bases).count p.1 := by
  unfold countBases
  simp only [List.mem_map]
  constructor
  · rintro ⟨k, hk, rfl⟩
    exact ⟨mem_sortedKeys.mp hk, rfl⟩
  · rintro ⟨h1, h2⟩
    exact ⟨p.1, mem_sortedKeys.mpr h1, by rw [← h2]⟩

lemma countBases_count_pos {bases : List Char} {p : Char × Nat}
    (h : p ∈ countBases bases) : 0 < p.2 := by
  rcases countBases_mem.mp h with ⟨h1, h2⟩
  rw [h2]
  exact List.count_pos_iff.mpr h1

lemma countBases_ne_nil {bases : List Char} (h : validBases bases ≠ []) :
    countBases bases ≠ [] := by
  rcases List.exists_mem_of_ne_nil _ h with ⟨b, hb⟩
  have : b ∈ sortedKeys (validBases bases) := mem_sortedKeys.mpr hb
  unfold countBases
  intro hcon
  rw [List.map_eq_nil_iff] at hcon
  rw [hcon] at this
  exact absurd this (List.not_mem_nil b)

lemma countBases_keys_sorted (bases : List Char) :
    (countBases bases).Pairwise (fun p q => p.1 < q.1) := by
  unfold countBases
  exact (sortedKeys_pairwise _).map _ (fun a b h => by simpa using h)

lemma countBases_singleton {bases : List Char} {b : Char}
    (h : validBases bases = [b]) : countBases bases = [(b, 1)] := by
  unfold countBases
  rw [h]
  simp [sortedKeys, insertKey]

/-! ### Majority-scan lemmas -/

lemma maxCount_append (l : List (Char × Nat)) (p : Char × Nat) :
    maxCount (l ++ [p]) = max (maxCount l) p.2 := by
  simp [maxCount, List.foldl_append]

lemma le_foldl_max_init : ∀ (l : List (Char × Nat)) (a : Nat),
    a ≤ l.foldl (fun m p => max m p.2) a := by
  intro l
  induction l with
  | nil => intro a; simp
  | cons q l ih =>
    intro a
    simp only [List.foldl_cons]
    exact le_trans (le_max_left a q.2) (ih (max a q.2))

lemma le_foldl_max_of_mem : ∀ {l : List (Char × Nat)} (a : Nat) {p : Char × Nat}, p ∈ l →
    p.2 ≤ l.foldl (fun m q => max m q.2) a := by
  intro l
  induction l with
  | nil => intro a p h; exact absurd h (List.not_mem_nil p)
  | cons q l ih =>
    intro a p h
    simp only [List.foldl_cons]
    rcases List.mem_cons.mp h with rfl | h
    · exact le_trans (le_max_right a p.2) (le_foldl_max_init l (max a p.2))
    · exact ih (max a q.2) h

lemma le_maxCount {l : List (Char × Nat)} {p : Char × Nat} (h : p ∈ l) :
    p.2 ≤ maxCount l :=
  le_foldl_max_of_mem 0 h

lemma majorityScan_append (l : List (Char × Nat)) (p : Char × Nat) :
    majorityScan (l ++ [p]) = majStep (majorityScan l) p := by
  simp [majorityScan, List.foldl_append]

lemma numAtMax_singleton (p : Char × Nat) : numAtMax [p] = 1 := by
  simp [numAtMax, maxCount]

lemma majorityScan_spec :
    ∀ (counts : List (Char × Nat)), counts ≠ [] → (∀ p ∈ counts, 0 < p.2) →
      (majorityScan counts).majCount = maxCount counts ∧
      ((majorityScan counts).maj, maxCount counts) ∈ counts ∧
      ((majorityScan counts).tie = true ↔ 2 ≤ numAtMax counts) := by
  intro counts
  induction counts using List.reverseRecOn with
  | nil => intro h; exact absurd rfl h
  | append_singleton l p ih =>
    intro _ hpos
    rcases eq_or_ne l [] with rfl | hl
    · have hp : 0 < p.2 := hpos p (by simp)
      simp only [List.nil_append] at *
      have h1 : majorityScan [p] = ⟨p.1, p.2, false⟩ := by
        simp [majorityScan, majStep, hp]
      have h2 : maxCount [p] = p.2 := by simp [maxCount]
      rw [h1, h2, numAtMax_singleton]
      refine ⟨rfl, by simp, ?_⟩
      simp
    · have hposl : ∀ q ∈ l, 0 < q.2 := fun q hq => hpos q (by simp [hq])
      rcases ih hl hposl with ⟨ih1, ih2, ih3⟩
      rw [majorityScan_append, maxCount_append]
      rcases lt_trichotomy p.2 (maxCount l) with hcmp | hcmp | hcmp
      · -- smaller than the running max: state unchanged
        have hmax : max (maxCount l) p.2 = maxCount l := max_eq_left (le_of_lt hcmp)
        have hstep : majStep (majorityScan l) p = majorityScan l := by
          unfold majStep
          rw [ih1]
          simp [not_lt_of_gt hcmp, ne_of_lt hcmp]
        rw [hstep, hmax]
        have hnum : numAtMax (l ++ [p]) = numAtMax l := by
          unfold numAtMax
          rw [maxCount_append, hmax, List.filter_append]
          have : List.filter (fun q => decide (q.2 = maxCount l)) [p] = [] := by
            simp [ne_of_lt hcmp]
          rw [this]
          simp
        rw [hnum]
        exact ⟨ih1, by simp [List.mem_append]; exact Or.inl ih2, ih3⟩
      · -- equal to the running max: tie is set
        have hmax : max (maxCount l) p.2 = maxCount l := max_eq_left (le_of_eq hcmp)
        have hstep : majStep (majorityScan l) p =
            ⟨(majorityScan l).maj, (majorityScan l).majCount, true⟩ := by
          unfold majStep
          rw [ih1]
          simp [hcmp, lt_irrefl]
        rw [hstep, hmax]
        have hmem : ((majorityScan l).maj, maxCount l) ∈ l ++ [p] := by
          simp [List.mem_append]; exact Or.inl ih2
        have hfilter1 : ((majorityScan l).maj, maxCount l) ∈
            List.filter (fun q => decide (q.2 = maxCount l)) l := by
          rw [List.mem_filter]
          exact ⟨ih2, by simp⟩
        have hnum : numAtMax (l ++ [p]) = numAtMax l + 1 := by
          unfold numAtMax
          rw [maxCount_append, hmax, List.filter_append]
          have : List.filter (fun q => decide (q.2 = maxCount l)) [p] = [p] := by
            simp [hcmp]
          rw [this]
          simp
        rw [hnum]
        refine ⟨ih1, hmem, ?_⟩
        have hpos1 : 1 ≤ numAtMax l := by
          unfold numAtMax
          exact List.length_pos.mpr (fun hc => by rw [hc] at hfilter1; exact absurd hfilter1 (List.not_mem_nil _))
        simp only [true_iff]
        omega
      · -- a new strict maximum: fresh leader, tie cleared
        have hmax : max (maxCount l) p.2 = p.2 := max_eq_right (le_of_lt hcmp)
        have hstep : majStep (majorityScan l) p = ⟨p.1, p.2, false⟩ := by
          unfold majStep
          rw [ih1]
          simp [hcmp]
        rw [hstep, hmax]
        have hnum : numAtMax (l ++ [p]) = 1 := by
          unfold numAtMax
          rw [maxCount_append, hmax, List.filter_append]
          have h1 : List.filter (fun q => decide (q.2 = p.2)) l = [] := by
            rw [List.filter_eq_nil_iff]
            intro q hq
            have : q.2 ≤ maxCount l := le_maxCount hq
            simp
            omega
          have h2 : List.filter (fun q => decide (q.2 = p.2)) [p] = [p] := by simp
          rw [h1, h2]
          simp
        rw [hnum]
        refine ⟨rfl, by simp, ?_⟩
        simp

lemma two_le_length_of_two_mem {α : Type} {a b : α} {l : List α}
    (ha : a ∈ l) (hb : b ∈ l) (hab : a ≠ b) : 2 ≤ l.length := by
  match l with
  | [] => exact absurd ha (List.not_mem_nil a)
  | [x] =>
    rcases List.mem_singleton.mp ha with rfl
    rcases List.mem_singleton.mp hb with rfl
    exact absurd rfl hab
  | x :: y :: t => simp [List.length_cons]

lemma majorityScan_unique {counts : List (Char × Nat)}
    (hne : counts ≠ []) (hpos : ∀ p ∈ counts, 0 < p.2)
    (hnotie : ¬ 2 ≤ numAtMax counts) :
    ∀ p ∈ counts, p.1 ≠ (majorityScan counts).maj → p.2 < maxCount counts := by
  rcases majorityScan_spec counts hne hpos with ⟨_, hmem, _⟩
  intro p hp hne1
  rcases lt_or_eq_of_le (le_maxCount hp) with h | h
  · exact h
  · exfalso
    apply hnotie
    apply two_le_length_of_two_mem (a := p) (b := ((majorityScan counts).maj, maxCount counts))
    · rw [List.mem_filter]; exact ⟨hp, by simp [h]⟩
    · rw [List.mem_filter]; exact ⟨hmem, by simp⟩
    · intro hc
      exact hne1 (by rw [hc])

lemma string_mk_singleton_eq {c d : Char} : String.mk [c] = String.mk [d] ↔ c = d := by
  constructor
  · intro h
    have := congrArg String.data h
    simpa using this
  · intro h; rw [h]

lemma countBases_key_ne {bases : List Char} {p : Char × Nat}
    (h : p ∈ countBases bases) : p.1 ≠ 'N' ∧ p.1 ≠ '-' := by
  rcases countBases_mem.mp h with ⟨h1, _⟩
  exact (validBases_mem.mp h1).2

/-- Claim C3: for a consensus computed from a BaseCount with `total > 1`
(both in the candidate branch `buildCall` and in the within-species branch
`withinSpeciesCall`): when two or more bases share the maximum count the
result is a tie — allele `"N"` and a tie-tagged evidence string carrying the
`base=count` breakdown whose entries are the exact multiplicities, listed in
strictly increasing base order; otherwise the allele is the unique base with
the strictly highest count.  Moreover `allele = "N"` holds exactly in the tie
case. -/
theorem c3_consensus_tie_and_majority (bases : List Char) (fp : Bool) (si name : String)
    (htotal : 1 < (validBases bases).length) :
    ((countBases bases).Pairwise (fun p q => p.1 < q.1)) ∧
    (∀ p ∈ countBases bases,
      p.1 ∈ validBases bases ∧ p.2 = (validBases bases).count p.1) ∧
    (2 ≤ numAtMax (countBases bases) →
      (buildCall (countBases bases) (validBases bases).length fp si name).allele = "N" ∧
      (buildCall (countBases bases) (validBases bases).length fp si name).evidence =
        "AncestralParalogTie:" ++ countsInfo (countBases bases) ++ si ∧
      (withinSpeciesCall (countBases bases) (validBases bases).length).allele = "N" ∧
      (withinSpeciesCall (countBases bases) (validBases bases).length).evidence =
        "WithinSpeciesParalogTie:" ++ countsInfo (countBases bases)) ∧
    (numAtMax (countBases bases) < 2 →
      ∃ b, (b, maxCount (countBases bases)) ∈ countBases bases ∧
        (∀ p ∈ countBases bases, p.1 ≠ b → p.2 < maxCount (countBases bases)) ∧
        (buildCall (countBases bases) (validBases bases).length fp si name).allele =
          String.mk [b] ∧
        (withinSpeciesCall (countBases bases) (validBases bases).length).allele =
          String.mk [b]) ∧
    ((buildCall (countBases bases) (validBases bases).length fp si name).allele = "N" ↔
      2 ≤ numAtMax (countBases bases)) := by
  have hvne : validBases bases ≠ [] := by
    intro h; rw [h] at htotal; simp at htotal
  have hcne : countBases bases ≠ [] := countBases_ne_nil hvne
  have hpos : ∀ p ∈ countBases bases, 0 < p.2 := fun p hp => countBases_count_pos hp
  rcases majorityScan_spec (countBases bases) hcne hpos with ⟨hmc, hmem, htie⟩
  have htot1 : (validBases bases).length ≠ 1 := by omega
  refine ⟨countBases_keys_sorted bases,
    fun p hp => countBases_mem.mp hp, ?_, ?_, ?_⟩
  · intro h2
    have ht : (majorityScan (countBases bases)).tie = true := htie.mpr h2
    simp [buildCall, withinSpeciesCall, htot1, ht]
  · intro h2
    have ht : (majorityScan (countBases bases)).tie = false := by
      rcases Bool.eq_false_or_eq_true (majorityScan (countBases bases)).tie with h | h
      · exact absurd (htie.mp h) (by omega)
      · exact h
    refine ⟨(majorityScan (countBases bases)).maj, hmem,
      majorityScan_unique hcne hpos (by omega), ?_, ?_⟩
    · simp [buildCall, htot1, ht]
    · simp [withinSpeciesCall, htot1, ht]
  · by_cases h2 : 2 ≤ numAtMax (countBases bases)
    · have ht : (majorityScan (countBases bases)).tie = true := htie.mpr h2
      simp [buildCall, htot1, ht, h2]
    · have ht : (majorityScan (countBases bases)).tie = false := by
        rcases Bool.eq_false_or_eq_true (majorityScan (countBases bases)).tie with h | h
        · exact absurd (htie.mp h) h2
        · exact h
      have hmaj : (majorityScan (countBases bases)).maj ≠ 'N' :=
        (countBases_key_ne hmem).1
      simp only [buildCall, htot1, ht, if_false, Bool.false_eq_true, if_neg]
      constructor
      · intro hcon
        exfalso
        apply hmaj
        have : String.mk [(majorityScan (countBases bases)).maj] = String.mk ['N'] := hcon
        exact string_mk_singleton_eq.mp this
      · intro h; exact absurd h h2

/-- Witness for C3 at the spec's own example `{A:2, C:2}`: the call is a tie
with allele `"N"` and the sorted breakdown `A=2,C=2`. -/
theorem c3_witness :
    (buildCall (countBases ['A', 'A', 'C', 'C']) (validBases ['A', 'A', 'C', 'C']).length
      false "" "G").allele = "N" ∧
    "AncestralParalogTie:" ++ countsInfo (countBases ['A', 'A', 'C', 'C']) ++ "" =
      "AncestralParalogTie:A=2,C=2" := by
  have h := c3_consensus_tie_and_majority ['A', 'A', 'C', 'C'] false "" "G" (by decide)
  exact ⟨(h.2.2.1 (by decide)).1, by decide⟩

/-! ### Candidate-loop lemmas -/

lemma buildCall_usedAncestor (counts : List (Char × Nat)) (total : Nat) (fp : Bool)
    (si name : String) : (buildCall counts total fp si name).usedAncestor = name := by
  unfold buildCall
  by_cases h1 : total = 1 <;> by_cases h2 : (majorityScan counts).tie <;> simp [h1, h2]

lemma buildCall_evidence_suffix (counts : List (Char × Nat)) (total : Nat) (fp : Bool)
    (si name : String) : ∃ core, (buildCall counts total fp si name).evidence = core ++ si := by
  unfold buildCall
  by_cases h1 : total = 1
  · exact ⟨(if fp then "AncestralParalog" else "Direct"), by simp [h1]⟩
  · by_cases h2 : (majorityScan counts).tie
    · exact ⟨"AncestralParalogTie:" ++ countsInfo counts, by simp [h1, h2]⟩
    · exact ⟨(if fp then "AncestralParalogVote:" else "MajorityVote:") ++ countsInfo counts,
        by simp [h1, h2]⟩

lemma tryCandidates_skip (store : AlignmentStore) (refG : String) (absStart : Int)
    (names : List String) :
    ∀ (pre : List String) (idx : Nat) (rest : List String),
      (∀ nm ∈ pre, candFails store refG absStart nm) →
      tryCandidatesFrom store refG absStart names idx (pre ++ rest) =
        tryCandidatesFrom store refG absStart names (idx + pre.length) rest := by
  intro pre
  induction pre with
  | nil => intro idx rest _; simp
  | cons nm pre ih =>
    intro idx rest hfail
    rcases hfail nm (by simp) with ⟨fp, b, hcb, hvb⟩
    have h0 : ¬ 0 < (validBases b).length := by rw [hvb]; simp
    simp only [List.cons_append, tryCandidatesFrom, hcb, h0, if_false, List.append_eq]
    rw [ih (idx + 1) rest (fun x hx => hfail x (by simp [hx]))]
    have h1 : idx + 1 + pre.length = idx + (nm :: pre).length := by
      simp only [List.length_cons]; omega
    rw [h1]

lemma tryCandidates_success (store : AlignmentStore) (refG : String) (absStart : Int)
    (names : List String) (idx : Nat) (tgt : String) (rest : List String)
    (fp : Bool) (b : List Char)
    (hcb : candidateBases store refG absStart tgt = Except.ok (fp, b))
    (hpos : 0 < (validBases b).length) :
    tryCandidatesFrom store refG absStart names idx (tgt :: rest) =
      Except.ok (some (buildCall (countBases b) (validBases b).length fp
        (candidateSourceInfo names idx tgt) tgt)) := by
  simp only [tryCandidatesFrom, hcb, hpos, if_true]

lemma findAncestralAllele_first_success (store : AlignmentStore) (refG : String)
    (absStart : Int) (pre : List String) (tgt : String) (post : List String)
    (fp : Bool) (b : List Char)
    (hfail : ∀ nm ∈ pre, candFails store refG absStart nm)
    (hcb : candidateBases store refG absStart tgt = Except.ok (fp, b))
    (hpos : 0 < (validBases b).length) :
    findAncestralAllele store refG absStart (pre ++ tgt :: post) =
      Except.ok (true, buildCall (countBases b) (validBases b).length fp
        (candidateSourceInfo (pre ++ tgt :: post) pre.length tgt) tgt) := by
  unfold findAncestralAllele
  rw [tryCandidates_skip store refG absStart _ pre 0 (tgt :: post) hfail]
  rw [tryCandidates_success store refG absStart _ (0 + pre.length) tgt post fp b hcb hpos]
  rw [Nat.zero_add]

lemma candidateBases_congr (store store2 : AlignmentStore) (refG : String) (absStart : Int)
    (nm : String)
    (h : ∀ dup, store2.getColumn nm absStart dup = store.getColumn nm absStart dup) :
    candidateBases store2 refG absStart nm = candidateBases store refG absStart nm := by
  unfold candidateBases
  rw [h false]
  cases store.getColumn nm absStart false with
  | error e => rfl
  | ok colMap =>
    simp only []
    unfold findParalogsInGenome
    rw [h true]

/-- Claim C4: the fallback resolver walks the candidates in the given order
and stops at the first whose filtered base count is positive: that
candidate's bases alone (never merged with any other candidate's) feed the
consensus, `usedAncestor` is its name, the evidence carries the
`@<name>` tag when more than one candidate is configured, with the
`(fallback:<idx>)` tag when its index is positive; and the result is
unchanged under any modification of the store's answers for the candidates
after it (no later candidate is queried). -/
theorem c4_fallback_short_circuit (store : AlignmentStore) (refG : String) (absStart : Int)
    (pre : List String) (tgt : String) (post : List String) (fp : Bool) (b : List Char)
    (hfail : ∀ nm ∈ pre, candFails store refG absStart nm)
    (hcb : candidateBases store refG absStart tgt = Except.ok (fp, b))
    (hpos : 0 < (validBases b).length) :
    findAncestralAllele store refG absStart (pre ++ tgt :: post) =
      Except.ok (true, buildCall (countBases b) (validBases b).length fp
        (candidateSourceInfo (pre ++ tgt :: post) pre.length tgt) tgt) ∧
    (buildCall (countBases b) (validBases b).length fp
      (candidateSourceInfo (pre ++ tgt :: post) pre.length tgt) tgt).usedAncestor = tgt ∧
    (1 < (pre ++ tgt :: post).length →
      candidateSourceInfo (pre ++ tgt :: post) pre.length tgt =
        "@" ++ tgt ++ (if 0 < pre.length then "(fallback:" ++ toString pre.length ++ ")"
                       else "")) ∧
    (∃ core, (buildCall (countBases b) (validBases b).length fp
      (candidateSourceInfo (pre ++ tgt :: post) pre.length tgt) tgt).evidence =
        core ++ candidateSourceInfo (pre ++ tgt :: post) pre.length tgt) ∧
    (∀ store2 : AlignmentStore,
      (∀ nm ∈ pre ++ [tgt], ∀ dup,
        store2.getColumn nm absStart dup = store.getColumn nm absStart dup) →
      findAncestralAllele store2 refG absStart (pre ++ tgt :: post) =
        findAncestralAllele store refG absStart (pre ++ tgt :: post)) := by
  have hmain := findAncestralAllele_first_success store refG absStart pre tgt post fp b
    hfail hcb hpos
  refine ⟨hmain, buildCall_usedAncestor _ _ _ _ _, ?_, buildCall_evidence_suffix _ _ _ _ _, ?_⟩
  · intro hlen
    unfold candidateSourceInfo
    rw [if_pos hlen]
  · intro store2 hagree
    have hfail2 : ∀ nm ∈ pre, candFails store2 refG absStart nm := by
      intro nm hnm
      rcases hfail nm hnm with ⟨fp1, b1, hcb1, hvb1⟩
      refine ⟨fp1, b1, ?_, hvb1⟩
      rw [candidateBases_congr store store2 refG absStart nm
        (fun dup => hagree nm (by simp [hnm]) dup)]
      exact hcb1
    have hcb2 : candidateBases store2 refG absStart tgt = Except.ok (fp, b) := by
      rw [candidateBases_congr store store2 refG absStart tgt
        (fun dup => hagree tgt (by simp) dup)]
      exact hcb
    rw [findAncestralAllele_first_success store2 refG absStart pre tgt post fp b
      hfail2 hcb2 hpos, hmain]

/-- Witness for C4 at the spec's example: candidates `[G1, G2]`, `G1` yields
no bases, `G2` yields three `T`s; the call uses `G2`, evidence
`MajorityVote:T=3@G2(fallback:1)`, and `usedAncestor = "G2"`. -/
theorem c4_witness :
    findAncestralAllele fallbackStore "R" 7 (["G1"] ++ "G2" :: []) =
      Except.ok (true, ⟨"T", "MajorityVote:T=3@G2(fallback:1)", "G2"⟩) := by
  have h := c4_fallback_short_circuit fallbackStore "R" 7 ["G1"] "G2" [] false
    ['T', 'T', 'T']
    (by
      intro nm hnm
      rcases List.mem_singleton.mp hnm with rfl
      exact ⟨false, [], rfl, rfl⟩)
    rfl (by decide)
  rw [h.1]
  have hb : buildCall (countBases ['T', 'T', 'T']) (validBases ['T', 'T', 'T']).length false
      (candidateSourceInfo (["G1"] ++ "G2" :: []) (["G1"] : List String).length "G2") "G2" =
      ⟨"T", "MajorityVote:T=3@G2(fallback:1)", "G2"⟩ := by decide
  rw [hb]

/-- Claim C8: a column whose filtered BaseCount has total exactly 1 takes the
single-base shortcut: the allele is that base and the evidence is exactly
`Direct` (step-1 bases, `foundParalogs = false`) or `AncestralParalog`
(step-2 bases, `foundParalogs = true`) followed only by the candidate
suffix; the majority/tie branch is never entered. -/
theorem c8_single_base_shortcut (store : AlignmentStore) (refG : String) (absStart : Int)
    (tgt : String) (rest : List String) (fp : Bool) (bases : List Char) (b : Char)
    (hcb : candidateBases store refG absStart tgt = Except.ok (fp, bases))
    (hone : validBases bases = [b]) :
    findAncestralAllele store refG absStart (tgt :: rest) =
      Except.ok (true, ⟨String.mk [b],
        (if fp then "AncestralParalog" else "Direct") ++
          candidateSourceInfo (tgt :: rest) 0 tgt, tgt⟩) := by
  have hpos : 0 < (validBases bases).length := by rw [hone]; simp
  have hmain := findAncestralAllele_first_success store refG absStart [] tgt rest fp bases
    (by intro nm hnm; exact absurd hnm (List.not_mem_nil nm)) hcb hpos
  simp only [List.nil_append, List.length_nil] at hmain
  rw [hmain]
  have hlen : (validBases bases).length = 1 := by rw [hone]; rfl
  have hcounts : countBases bases = [(b, 1)] := countBases_singleton hone
  rw [hlen, hcounts]
  unfold buildCall
  simp

/-- Witness for C8: a direct column holding a single `C` produces allele
`C` with evidence exactly `Direct` for the one-candidate configuration. -/
theorem c8_witness :
    findAncestralAllele singleBaseStore "R" 9 ("Anc" :: []) =
      Except.ok (true, ⟨String.mk ['C'],
        (if false then "AncestralParalog" else "Direct") ++
          candidateSourceInfo ("Anc" :: []) 0 "Anc", "Anc"⟩) :=
  c8_single_base_shortcut singleBaseStore "R" 9 "Anc" [] false ['C'] 'C'
    rfl (by decide)

/-- Claim C10: when the direct query returns at least one base but every one
of them is `N` or `-`, the duplication-enabled paralog query is not
attempted for that candidate (the result is independent of the store's
duplication-mode answers), the filtered total is 0, and the candidate loop
moves on to the next candidate. -/
theorem c10_gap_only_direct_column (store store2 : AlignmentStore) (refG : String)
    (absStart : Int) (tgt : String) (names : List String) (idx : Nat)
    (rest : List String) (colMap : List ColumnEntry)
    (hdq : store.getColumn tgt absStart false = Except.ok colMap)
    (hne : collectDirectBases tgt colMap ≠ [])
    (hgap : validBases (collectDirectBases tgt colMap) = []) :
    candidateBases store refG absStart tgt =
      Except.ok (false, collectDirectBases tgt colMap) ∧
    (store2.getColumn tgt absStart false = store.getColumn tgt absStart false →
      candidateBases store2 refG absStart tgt = candidateBases store refG absStart tgt) ∧
    tryCandidatesFrom store refG absStart names idx (tgt :: rest) =
      tryCandidatesFrom store refG absStart names (idx + 1) rest := by
  have hbases : ¬ (collectDirectBases tgt colMap).isEmpty := by
    simp [List.isEmpty_iff, hne]
  have hcb : candidateBases store refG absStart tgt =
      Except.ok (false, collectDirectBases tgt colMap) := by
    unfold candidateBases
    rw [hdq]
    simp [hbases]
  refine ⟨hcb, ?_, ?_⟩
  · intro heq
    unfold candidateBases
    rw [heq, hdq]
    simp [hbases]
  · have h0 : ¬ 0 < (validBases (collectDirectBases tgt colMap)).length := by
      rw [hgap]; simp
    simp only [tryCandidatesFrom, hcb, h0, if_false]

/-- Witness for C10: a direct column holding only `N` and `-` short-circuits
past the paralog query and the candidate yields no call. -/
theorem c10_witness :
    candidateBases gapOnlyStore "R" 4 "G1" =
      Except.ok (false, collectDirectBases "G1" [⟨"G1", [⟨2, 'N'⟩, ⟨3, '-'⟩]⟩]) ∧
    tryCandidatesFrom gapOnlyStore "R" 4 ["G1"] 0 ("G1" :: []) =
      tryCandidatesFrom gapOnlyStore "R" 4 ["G1"] (0 + 1) [] := by
  have h := c10_gap_only_direct_column gapOnlyStore gapOnlyStore "R" 4 "G1" ["G1"] 0 []
    [⟨"G1", [⟨2, 'N'⟩, ⟨3, '-'⟩]⟩] rfl (by decide) (by decide)
  exact ⟨h.1, h.2.2⟩

/-! ### Missing-result and error-handling lemmas -/

lemma findParalogsInGenome_error (store : AlignmentStore) (refG : String) (absStart : Int)
    (tgt : String) (herr : store.getColumn tgt absStart true = Except.error ()) :
    findParalogsInGenome store refG absStart tgt = (false, []) := by
  unfold findParalogsInGenome
  rw [herr]
  by_cases h : absStart < 0 <;> simp [h]

lemma findAncestralAllele_missing (store : AlignmentStore) (refG : String) (absStart : Int)
    (names : List String)
    (hfail : ∀ nm ∈ names, candFails store refG absStart nm)
    (hself : (findParalogsInGenome store refG absStart refG).2 = []) :
    findAncestralAllele store refG absStart names = Except.ok (false, missingCall names) := by
  have hnone : tryCandidatesFrom store refG absStart names 0 names = Except.ok none := by
    have h := tryCandidates_skip store refG absStart names names 0 [] hfail
    rw [List.append_nil] at h
    rw [h]
    rfl
  unfold findAncestralAllele
  rw [hnone]
  simp [hself]

/-- Claim C6: when every configured candidate yields no base and the
within-species paralog search yields none either, the resolver returns
allele `N`, evidence exactly `Missing(tried:<k>+self)` for more than one
candidate and `Missing(+self)` otherwise, and `usedAncestor` is the first
candidate's name (`Unknown` when no candidate is configured). -/
theorem c6_exhaustive_missing (store : AlignmentStore) (refG : String) (absStart : Int)
    (names : List String)
    (hfail : ∀ nm ∈ names, candFails store refG absStart nm)
    (hself : (findParalogsInGenome store refG absStart refG).2 = []) :
    findAncestralAllele store refG absStart names =
      Except.ok (false, ⟨"N",
        (if 1 < names.length then "Missing(tried:" ++ toString names.length ++ "+self)"
         else "Missing(+self)"),
        names.headD "Unknown"⟩) :=
  findAncestralAllele_missing store refG absStart names hfail hself

/-- Witness for C6: an all-empty store with a 2-candidate configuration
yields exactly `Missing(tried:2+self)`, and with one candidate exactly
`Missing(+self)`; in both runs `usedAncestor` is the first candidate. -/
theorem c6_witness :
    findAncestralAllele emptyStore "R" 3 ["A", "B"] =
      Except.ok (false, ⟨"N", "Missing(tried:2+self)", "A"⟩) ∧
    findAncestralAllele emptyStore "R" 3 ["A"] =
      Except.ok (false, ⟨"N", "Missing(+self)", "A"⟩) := by
  have h2 := c6_exhaustive_missing emptyStore "R" 3 ["A", "B"]
    (fun nm _ => ⟨false, [], rfl, rfl⟩) rfl
  have h1 := c6_exhaustive_missing emptyStore "R" 3 ["A"]
    (fun nm _ => ⟨false, [], rfl, rfl⟩) rfl
  rw [h2, h1]
  constructor <;> decide

/-- Counterexample to C1: an error surfaced by the alignment store during a
DIRECT-ortholog (duplication-free) column query is not caught: the resolver
propagates it, and the batch run aborts with no rows produced — a single bad
column lookup does abort the run. -/
theorem c1_counterexample :
    findAncestralAllele directErrorStore "R" 2 ["G1"] = Except.error () ∧
    runBatch directErrorStore "R" ["G1"] [⟨"chr1", 2, 3, 0⟩] true = Except.error () := by
  constructor <;> rfl

/-- Claim C1 (amended): only errors surfaced during a DUPLICATION-enabled
query are caught and treated as no bases found; when every direct query
answers (with an empty column) and every duplication-mode query throws, the
per-position resolution still completes, downgrading to the Missing result
instead of aborting.  (An error in a direct-ortholog query, by contrast,
propagates and aborts the batch — see the counterexample.) -/
theorem c1_dup_errors_caught (store : AlignmentStore) (refG : String) (absStart : Int)
    (names : List String) (tgt : String) :
    (store.getColumn tgt absStart true = Except.error () →
      findParalogsInGenome store refG absStart tgt = (false, [])) ∧
    ((∀ nm ∈ names, store.getColumn nm absStart false = Except.ok []) →
     (∀ nm, store.getColumn nm absStart true = Except.error ()) →
      findAncestralAllele store refG absStart names =
        Except.ok (false, missingCall names)) := by
  constructor
  · exact findParalogsInGenome_error store refG absStart tgt
  · intro hdir hdup
    have hfail : ∀ nm ∈ names, candFails store refG absStart nm := by
      intro nm hnm
      refine ⟨false, [], ?_, rfl⟩
      unfold candidateBases
      rw [hdir nm hnm]
      have hp := findParalogsInGenome_error store refG absStart nm (hdup nm)
      simp [collectDirectBases, hp]
    have hself : (findParalogsInGenome store refG absStart refG).2 = [] := by
      rw [findParalogsInGenome_error store refG absStart refG (hdup refG)]
    exact findAncestralAllele_missing store refG absStart names hfail hself

/-- Witness for C1 (amended): a store whose duplication-mode queries all
throw while direct queries return empty columns still resolves the position
to the Missing call instead of erroring. -/
theorem c1_witness :
    findParalogsInGenome dupErrorStore "R" 3 "G1" = (false, []) ∧
    findAncestralAllele dupErrorStore "R" 3 ["G1"] =
      Except.ok (false, missingCall ["G1"]) := by
  have h := c1_dup_errors_caught dupErrorStore "R" 3 ["G1"] "G1"
  exact ⟨h.1 rfl, h.2 (fun nm _ => rfl) (fun nm => rfl)⟩

lemma filterMap_filter_of_none {α β : Type} (F : α → Option β) (p : α → Bool)
    (h : ∀ x, p x = false → F x = none) :
    ∀ l : List α, l.filterMap F = (l.filter p).filterMap F := by
  intro l
  induction l with
  | nil => rfl
  | cons x xs ih =>
    by_cases hp : p x
    · simp [List.filter_cons, hp, List.filterMap_cons, ih]
    · have hn : F x = none := h x (by simpa using hp)
      simp [List.filter_cons, hp, List.filterMap_cons, hn, ih]

lemma foldl_congr_map {α β : Type} (f : β → α → β) (g : α → α)
    (h : ∀ acc a, f acc (g a) = f acc a) :
    ∀ (l : List α) (acc : β), (l.map g).foldl f acc = l.foldl f acc := by
  intro l
  induction l with
  | nil => intro acc; rfl
  | cons x xs ih => intro acc; simp only [List.map_cons, List.foldl_cons, h, ih]

/-- Counterexample to C2: in a within-species DIRECT (duplication-free)
query, the base whose absolute array position equals the query position
itself is NOT excluded: with the direct column at reference position 5
holding exactly the self hit (array index 5, base `A`) owned by the
reference genome, the direct collection keeps that base and the resolver
counts it, answering allele `A`/`Direct` instead of finding nothing. -/
theorem c2_counterexample :
    collectDirectBases "R" [⟨"R", [⟨5, 'A'⟩]⟩] = ['A'] ∧
    findAncestralAllele selfHitStore "R" 5 ["R"] =
      Except.ok (true, ⟨"A", "Direct", "R"⟩) := by
  constructor <;> decide

/-- Claim C2 (amended): the self-exclusion holds only for the
duplication-enabled paralog collection: in a within-species search
(target = reference) the collected paralog bases are unchanged when every
hit at the query position is removed from the column — the paralog search
never counts position P's own base.  The direct-ortholog collection
performs no such exclusion (see the counterexample). -/
theorem c2_paralog_self_exclusion (refG : String) (absStart : Int)
    (colMap : List ColumnEntry) :
    collectParalogBases refG refG absStart colMap =
      collectParalogBases refG refG absStart
        (colMap.map (fun e => ⟨e.genome, e.dnas.filter (fun h => h.arrayIndex != absStart)⟩)) := by
  unfold collectParalogBases
  refine (foldl_congr_map _ _ ?_ colMap []).symm
  intro acc e
  by_cases hg : e.genome = refG
  · simp only [hg, if_pos]
    congr 1
    refine (filterMap_filter_of_none (paralogHitBase refG refG absStart)
      (fun h => h.arrayIndex != absStart) ?_ e.dnas).symm
    intro x hx
    have hax : x.arrayIndex = absStart := by simpa using hx
    simp [paralogHitBase, hax]
  · simp [hg]

/-- Counterexample to C5: the tie evidence of a successful candidate DOES
carry the candidate suffix when several candidates are configured: with
candidates `[G1, G2]` and `G1`'s direct column holding one `A` and one `C`,
the tie evidence ends in `@G1`. -/
theorem c5_counterexample :
    findAncestralAllele tieStore "R" 1 ["G1", "G2"] =
      Except.ok (true, ⟨"N", "AncestralParalogTie:A=1,C=1@G1", "G1"⟩) ∧
    "AncestralParalogTie:A=1,C=1@G1" = "AncestralParalogTie:A=1,C=1" ++ "@G1" := by
  constructor <;> decide

/-- Claim C5 (amended): the candidate suffix (`@<name>` and, for a positive
index, `(fallback:<idx>)`) is appended to EVERY evidence string produced
from a successful candidate — the single-base tags, the vote tags, and also
the tie tag; the within-species tags and the Missing evidence are the ones
built without any candidate suffix. -/
theorem c5_suffix_on_all_candidate_evidence (counts : List (Char × Nat)) (total : Nat)
    (fp : Bool) (si name : String) (names : List String) :
    (∃ core, (buildCall counts total fp si name).evidence = core ++ si) ∧
    (total ≠ 1 → (majorityScan counts).tie = true →
      (buildCall counts total fp si name).evidence =
        "AncestralParalogTie:" ++ countsInfo counts ++ si) ∧
    (missingCall names).evidence =
      (if 1 < names.length then "Missing(tried:" ++ toString names.length ++ "+self)"
       else "Missing(+self)") ∧
    (withinSpeciesCall counts total).evidence =
      (if total = 1 then "WithinSpeciesParalog"
       else if (majorityScan counts).tie then "WithinSpeciesParalogTie:" ++ countsInfo counts
       else "WithinSpeciesParalogVote:" ++ countsInfo counts) := by
  refine ⟨buildCall_evidence_suffix _ _ _ _ _, ?_, rfl, ?_⟩
  · intro h1 h2
    simp [buildCall, h1, h2]
  · by_cases h1 : total = 1
    · simp [withinSpeciesCall, h1]
    · by_cases h2 : (majorityScan counts).tie <;> simp [withinSpeciesCall, h1, h2]

/-- Witness for C5 (amended) on the tie counts `{A:1, C:1}` with the
2-candidate suffix `@G1`: the tie evidence carries the suffix. -/
theorem c5_witness :
    (buildCall [('A', 1), ('C', 1)] 2 false "@G1" "G1").evidence =
      "AncestralParalogTie:A=1,C=1" ++ "@G1" := by
  have h := c5_suffix_on_all_candidate_evidence [('A', 1), ('C', 1)] 2 false "@G1" "G1"
    ["G1", "G2"]
  have he := h.2.1 (by decide) (by decide)
  rw [he]
  decide

/-! ### Scheduler lemmas -/

lemma insertByLt_perm (lt : Nat → Nat → Bool) (x : Nat) :
    ∀ l : List Nat, (insertByLt lt x l).Perm (x :: l)
  | [] => List.Perm.refl _
  | y :: ys => by
    unfold insertByLt
    by_cases h : lt x y
    · rw [if_pos h]
    · rw [if_neg h]
      exact (List.Perm.cons y (insertByLt_perm lt x ys)).trans (List.Perm.swap x y ys)

lemma sortIndices_perm (lt : Nat → Nat → Bool) :
    ∀ l : List Nat, (sortIndices lt l).Perm l
  | [] => List.Perm.refl _
  | x :: xs => by
    unfold sortIndices
    simp only [List.foldr_cons]
    exact (insertByLt_perm lt x _).trans (List.Perm.cons x (sortIndices_perm lt xs))

lemma mem_processingOrder {positions : List Position} {noSort : Bool} {j : Nat} :
    j ∈ processingOrder positions noSort ↔ j < positions.length := by
  unfold processingOrder
  by_cases h : noSort
  · simp [h, List.mem_range]
  · simp only [h, if_false, Bool.false_eq_true]
    rw [(sortIndices_perm _ _).mem_iff]
    simp [List.mem_range]

lemma foldl_set_length (f : Nat → String) :
    ∀ (order : List Nat) (init : List String),
      (order.foldl (fun rs i => rs.set i (f i)) init).length = init.length := by
  intro order
  induction order with
  | nil => intro init; rfl
  | cons i rest ih =>
    intro init
    simp only [List.foldl_cons]
    rw [ih]
    simp

lemma foldl_set_getElem (f : Nat → String) :
    ∀ (order : List Nat) (init : List String) (j : Nat),
      (order.foldl (fun rs i => rs.set i (f i)) init)[j]? =
        if j ∈ order ∧ j < init.length then some (f j) else init[j]? := by
  intro order
  induction order with
  | nil => intro init j; simp
  | cons i rest ih =>
    intro init j
    simp only [List.foldl_cons]
    rw [ih]
    simp only [List.length_set, List.mem_cons]
    rw [List.getElem?_set]
    by_cases hmem : j ∈ rest
    · by_cases hlen : j < init.length
      · simp [hmem, hlen]
      · have hnone : init[j]? = none := List.getElem?_eq_none (by omega)
        by_cases hij : i = j
        · subst hij
          simp [hmem, hlen, hnone]
        · simp [hmem, hlen, hnone, hij]
    · by_cases hij : i = j
      · subst hij
        by_cases hlen : i < init.length
        · simp [hmem, hlen]
        · have hnone : init[i]? = none := List.getElem?_eq_none (by omega)
          simp [hmem, hlen, hnone]
      · simp [hmem, Ne.symm hij, hij]

lemma runLoop_error_of_mem (row : Nat → Except Unit String) :
    ∀ (order : List Nat) (res : List String),
      (∃ i ∈ order, row i = Except.error ()) → runLoop row order res = Except.error () := by
  intro order
  induction order with
  | nil =>
    intro res h
    rcases h with ⟨i, hi, _⟩
    exact absurd hi (List.not_mem_nil i)
  | cons i rest ih =>
    intro res h
    unfold runLoop
    cases hrow : row i with
    | error e => cases e; rfl
    | ok s =>
      rcases h with ⟨k, hk, hkerr⟩
      rcases List.mem_cons.mp hk with rfl | hk2
      · rw [hrow] at hkerr
        exact absurd hkerr (by simp)
      · exact ih _ ⟨k, hk2, hkerr⟩

lemma runLoop_ok_of_all (row : Nat → Except Unit String) :
    ∀ (order : List Nat) (res : List String),
      (∀ i ∈ order, row i ≠ Except.error ()) →
      runLoop row order res =
        Except.ok (order.foldl (fun rs i => rs.set i (getOk (row i))) res) := by
  intro order
  induction order with
  | nil => intro res _; rfl
  | cons i rest ih =>
    intro res hall
    unfold runLoop
    cases hrow : row i with
    | error e =>
      cases e
      exact absurd hrow (hall i (by simp))
    | ok s =>
      simp only [List.foldl_cons]
      have hgo : getOk (row i) = s := by rw [hrow]; rfl
      rw [hgo]
      exact ih _ (fun k hk => hall k (by simp [hk]))

lemma runBatch_error (store : AlignmentStore) (refName : String) (names : List String)
    (positions : List Position) (ns : Bool)
    (h : ∃ i, i < positions.length ∧ rowOf store refName names positions i = Except.error ()) :
    runBatch store refName names positions ns = Except.error () := by
  rcases h with ⟨i, hi, herr⟩
  unfold runBatch
  exact runLoop_error_of_mem _ _ _ ⟨i, mem_processingOrder.mpr hi, herr⟩

lemma runBatch_ok (store : AlignmentStore) (refName : String) (names : List String)
    (positions : List Position) (ns : Bool)
    (h : ∀ i, i < positions.length → rowOf store refName names positions i ≠ Except.error ()) :
    runBatch store refName names positions ns =
      Except.ok ((processingOrder positions ns).foldl
        (fun rs i => rs.set i (getOk (rowOf store refName names positions i)))
        (List.replicate positions.length "")) := by
  unfold runBatch
  exact runLoop_ok_of_all _ _ _ (fun i hi => h i (mem_processingOrder.mp hi))

lemma runBatch_fold_getElem (store : AlignmentStore) (refName : String) (names : List String)
    (positions : List Position) (ns : Bool) (j : Nat) :
    ((processingOrder positions ns).foldl
        (fun rs i => rs.set i (getOk (rowOf store refName names positions i)))
        (List.replicate positions.length ""))[j]? =
      if j < positions.length then some (getOk (rowOf store refName names positions j))
      else none := by
  rw [foldl_set_getElem]
  by_cases hj : j < positions.length
  · rw [if_pos ⟨mem_processingOrder.mpr hj, by simpa using hj⟩, if_pos hj]
  · rw [if_neg (by simp [mem_processingOrder]; omega), if_neg hj]
    exact List.getElem?_eq_none (by simpa using Nat.le_of_not_lt hj)

lemma runBatch_invariant (store : AlignmentStore) (refName : String) (names : List String)
    (positions : List Position) (b b2 : Bool) :
    runBatch store refName names positions b = runBatch store refName names positions b2 := by
  by_cases herr : ∃ i, i < positions.length ∧
      rowOf store refName names positions i = Except.error ()
  · rw [runBatch_error store refName names positions b herr,
      runBatch_error store refName names positions b2 herr]
  · have hall : ∀ i, i < positions.length →
        rowOf store refName names positions i ≠ Except.error () := by
      intro i hi hcon
      exact herr ⟨i, hi, hcon⟩
    rw [runBatch_ok store refName names positions b hall,
      runBatch_ok store refName names positions b2 hall]
    congr 1
    apply List.ext_getElem?
    intro j
    rw [runBatch_fold_getElem, runBatch_fold_getElem]

/-- Claim C7: for fixed store content and input positions the emitted output
is identical with and without the `noSort` flag (the locality sort permutes
only the internal processing order), and output row `i` always corresponds
to input position `i`: slot `i` of the result buffer holds exactly the row
computed for input position `i`.  The whole program result is likewise
independent of the flag. -/
theorem c7_sort_invariance_and_order (store : AlignmentStore) (refName : String)
    (names : List String) (positions : List Position) :
    runBatch store refName names positions true = runBatch store refName names positions false ∧
    (∀ out, runBatch store refName names positions true = Except.ok out →
      out.length = positions.length ∧
      ∀ i, i < positions.length →
        ∃ s, rowOf store refName names positions i = Except.ok s ∧ out[i]? = some s) ∧
    (∀ lines noSort noSort2,
      runProgram store refName names lines noSort =
        runProgram store refName names lines noSort2) := by
  refine ⟨runBatch_invariant store refName names positions true false, ?_, ?_⟩
  · intro out hout
    by_cases herr : ∃ i, i < positions.length ∧
        rowOf store refName names positions i = Except.error ()
    · rw [runBatch_error store refName names positions true herr] at hout
      exact absurd hout (by simp)
    · have hall : ∀ i, i < positions.length →
          rowOf store refName names positions i ≠ Except.error () := by
        intro i hi hcon
        exact herr ⟨i, hi, hcon⟩
      rw [runBatch_ok store refName names positions true hall] at hout
      have hout2 := (Except.ok.injEq _ _).mp hout.symm
      subst hout2
      constructor
      · rw [foldl_set_length]
        simp
      · intro i hi
        cases hrow : rowOf store refName names positions i with
        | error e => cases e; exact absurd hrow (hall i hi)
        | ok s =>
          refine ⟨s, rfl, ?_⟩
          rw [runBatch_fold_getElem, if_pos hi, hrow]
          rfl
  · intro lines noSort noSort2
    unfold runProgram
    by_cases hempty : (loadPositions lines).isEmpty
    · simp [hempty]
    · simp only [hempty, Bool.false_eq_true, if_false]
      rw [runBatch_invariant store refName names (loadPositions lines) noSort noSort2]

/-- Witness for C7 on two positions that the locality sort swaps: the sorted
and unsorted runs produce the same buffer, and slot 1 holds the row of input
position 1. -/
theorem c7_witness :
    runBatch emptyStore "R" ["A"] twoPositions true =
      Except.ok ["chr2\t5\t6\tG\tA\tN\tMissing(+self)",
                 "chr1\t3\t4\tG\tA\tN\tMissing(+self)"] ∧
    (∃ s, rowOf emptyStore "R" ["A"] twoPositions 1 = Except.ok s ∧
      (["chr2\t5\t6\tG\tA\tN\tMissing(+self)",
        "chr1\t3\t4\tG\tA\tN\tMissing(+self)"] : List String)[1]? = some s) := by
  have hout : runBatch emptyStore "R" ["A"] twoPositions true =
      Except.ok ["chr2\t5\t6\tG\tA\tN\tMissing(+self)",
                 "chr1\t3\t4\tG\tA\tN\tMissing(+self)"] := by decide
  have h := (c7_sort_invariance_and_order emptyStore "R" ["A"] twoPositions).2.1 _ hout
  exact ⟨hout, h.2 1 (by decide)⟩

lemma loadPositions_nil {lines : List String} (h : ∀ l ∈ lines, parseLine l = none) :
    loadPositions lines = [] := by
  unfold loadPositions
  have hfm : lines.filterMap parseLine = [] := by
    rw [List.filterMap_eq_nil_iff]
    exact h
  rw [hfm]
  rfl

/-- Claim C9: when no input line parses as a position (all blank, comments,
or malformed), the program reports the error and exits with status 1 without
emitting any output row, even though the store resolved and the run reached
the processing stage. -/
theorem c9_no_valid_positions (store : AlignmentStore) (refName : String)
    (names : List String) (lines : List String) (noSort : Bool)
    (h : ∀ l ∈ lines, parseLine l = none) :
    runProgram store refName names lines noSort =
      ⟨1, [], some "No valid positions found in input file"⟩ := by
  unfold runProgram
  rw [loadPositions_nil h]
  rfl

/-- Witness for C9: a comment line, a blank line, and a malformed line yield
exit status 1 and no output rows. -/
theorem c9_witness :
    runProgram emptyStore "R" ["A"] ["# comment line", "", "chrX notanumber 7"] true =
      ⟨1, [], some "No valid positions found in input file"⟩ :=
  c9_no_valid_positions emptyStore "R" ["A"] ["# comment line", "", "chrX notanumber 7"]
    true (by decide)
